import Mathlib

/-!
Verification development for the `PythonParser` service of the DocString
repository (src/server/routes.ts).  The scanner operates on JavaScript
strings; here a string is modelled as a `List Char`, and `split('\n')`
becomes `splitLines`.  The three operations modelled are
`parseFunctions`, `validatePythonSyntax` and
`extractCodeWithoutDocstrings`, together with the small string helpers
they use (`trim`, `getIndentLevel`, prefix and suffix tests, the
def-header regular expression).
-/

/-- Characters of a Lean string literal, modelling a JS string value. -/
def S (s : String) : List Char := s.data

/-- One physical line of the input (the text between two newlines). -/
abbrev Line := List Char

/-- Whitespace test used by JS `trim` and by the `^(\s*)` indentation regex. -/
def wsp (c : Char) : Bool := c.isWhitespace

/-- JS `String.prototype.trim`: strip whitespace from both ends. -/
def trim (l : Line) : Line := ((l.dropWhile wsp).reverse.dropWhile wsp).reverse

/-- Model of `getIndentLevel` from the source: the length of the `^(\s*)` match,
i.e. the number of leading whitespace characters of the raw line. -/
def getIndentLevel (l : Line) : Nat := (l.takeWhile wsp).length

/-- JS `String.prototype.startsWith` (first argument is the pattern). -/
def lineHasPfx : Line → Line → Bool
  | [], _ => true
  | _ :: _, [] => false
  | p :: ps, c :: cs => p == c && lineHasPfx ps cs

/-- JS `String.prototype.endsWith` (first argument is the pattern). -/
def lineHasSfx (p l : Line) : Bool := lineHasPfx p.reverse l.reverse

/-- JS `String.prototype.replace` with a plain one-character pattern:
only the first occurrence is removed. -/
def removeFirst (c : Char) : Line → Line
  | [] => []
  | x :: xs => if x == c then xs else x :: removeFirst c xs

/-- Model of `(line.match(/\(/g) || []).length - (line.match(/\)/g) || []).length`:
the parenthesis-count delta contributed by one line. -/
def parenDelta (l : Line) : Int := (l.count '(' : Int) - (l.count ')' : Int)

/-- JS `code.split('\n')`. -/
def splitLines : List Char → List Line
  | [] => [[]]
  | c :: cs =>
    if c == '\n' then [] :: splitLines cs
    else
      match splitLines cs with
      | [] => [[c]]
      | l :: ls => (c :: l) :: ls

/-- JS `lines.join('\n')`. -/
def joinLines : List Line → List Char
  | [] => []
  | [l] => l
  | l :: l2 :: ls => l ++ '\n' :: joinLines (l2 :: ls)

/-- The class `[a-zA-Z_]`, the first character of the captured identifier. -/
def isIdentStart (c : Char) : Bool := c.isAlpha || c == '_'

/-- The class `[a-zA-Z0-9_]`, the remaining characters of the captured identifier. -/
def isIdentChar (c : Char) : Bool := c.isAlpha || c.isDigit || c == '_'

/-- The def-header regex `^def\s+([a-zA-Z_][a-zA-Z0-9_]*)\s*\(` of
`parseFunctions`, applied to a trimmed line; returns the captured name. -/
def matchDef : Line → Option Line
  | 'd' :: 'e' :: 'f' :: rest =>
    if (rest.takeWhile wsp).isEmpty then none
    else
      match rest.dropWhile wsp with
      | [] => none
      | c :: cs =>
        if isIdentStart c then
          match (cs.dropWhile isIdentChar).dropWhile wsp with
          | '(' :: _ => some (c :: cs.takeWhile isIdentChar)
          | _ => none
        else none
  | _ => none

/-- The record `parseFunctions` emits per matched definition line. -/
structure PythonFunction where
  name : Line
  startLine : Nat
  endLine : Nat
  signature : Line
  hasDocstring : Bool
deriving DecidableEq, Repr

/-- Trimmed-line test for the three body-terminators of the body-end scan:
`def `, `class ` and `if __name__`. -/
def isStopKw (t : Line) : Bool :=
  lineHasPfx (S ("def ")) t || lineHasPfx (S ("class ")) t ||
    lineHasPfx (S ("if __name__")) t

/-- The body-end scan of `parseFunctions` (routes.ts lines 218-234).
`rest` are the lines after the current position, `j` is the absolute
0-indexed position of `rest`'s head and `e` the running `endLine`. -/
def bodyEndScan (indent : Nat) : List Line → Nat → Nat → Nat
  | [], _, e => e
  | l :: rest, j, e =>
    if (trim l).isEmpty then bodyEndScan indent rest (j + 1) e
    else if getIndentLevel l ≤ indent ∧ isStopKw (trim l) = true then j
    else bodyEndScan indent rest (j + 1) (j + 1)

/-- The signature-reassembly loop of `parseFunctions` (routes.ts lines
242-247).  The state is the accumulated signature text and the running
parenthesis count; the lines not yet consumed are the first argument. -/
def sigLoopSt : List Line → Line → Int → Line × Int
  | [], sig, pc => (sig, pc)
  | l :: rest, sig, pc =>
    if pc > 0 ∨ sig.contains ':' = false then
      sigLoopSt rest (sig ++ ' ' :: trim l) (pc + parenDelta (trim l))
    else (sig, pc)

/-- Accumulated signature state for a def line `l` followed by `rest`:
the loop starts from the trimmed def line and its own paren delta. -/
def accSigSt (l : Line) (rest : List Line) : Line × Int :=
  sigLoopSt rest (trim l) (parenDelta (trim l))

/-- Trimmed-line test for the two docstring delimiters. -/
def startsTriple (t : Line) : Bool :=
  lineHasPfx (S ("\"\"\"")) t || lineHasPfx (S ("'''")) t

/-- The docstring look-ahead of `parseFunctions` (routes.ts lines
209-216): inspect the very next physical line, if any. -/
def nextDoc : List Line → Bool
  | [] => false
  | nl :: _ => startsTriple (trim nl)

/-- The descriptor `parseFunctions` pushes for a def line `l` at absolute
0-index `i`, whose following lines are `rest` and whose matched name is
`nm`. -/
def mkDesc (i : Nat) (l : Line) (rest : List Line) (nm : Line) : PythonFunction :=
  { name := nm
  , startLine := i + 1
  , endLine := bodyEndScan (getIndentLevel l) rest (i + 1) (i + 1)
  , signature := removeFirst ':' (accSigSt l rest).1
  , hasDocstring := nextDoc rest }

/-- The main scan of `parseFunctions` over the remaining lines; `i` is
the absolute 0-index of the head line. -/
def parseLoop : List Line → Nat → List PythonFunction
  | [], _ => []
  | l :: rest, i =>
    match matchDef (trim l) with
    | some nm => mkDesc i l rest nm :: parseLoop rest (i + 1)
    | none => parseLoop rest (i + 1)

/-- Model of `PythonParser.parseFunctions`. -/
def parseFunctions (code : List Char) : List PythonFunction :=
  parseLoop (splitLines code) 0

/-- The `{ isValid, error? }` object returned by `validatePythonSyntax`. -/
inductive ValidationResult where
  | valid : ValidationResult
  | invalid : Line → ValidationResult
deriving DecidableEq, Repr

/-- The per-line character scan of `validatePythonSyntax` (routes.ts
lines 287-313): update the three bracket counters over a trimmed line,
suppressing counting inside single-quoted or double-quoted spans and
stopping at a `#` outside a string. -/
def countLine : List Char → Bool → Char → Int × Int × Int → Int × Int × Int
  | [], _, _, acc => acc
  | c :: cs, inStr, sc, (p, b, r) =>
    if !inStr && c == '#' then (p, b, r)
    else
      let st : Bool × Char :=
        if c == '"' || c == '\'' then
          if !inStr then (true, c)
          else if c == sc then (false, sc)
          else (inStr, sc)
        else (inStr, sc)
      let acc2 : Int × Int × Int :=
        if !st.1 then
          ( if c == '(' then p + 1 else if c == ')' then p - 1 else p
          , if c == '[' then b + 1 else if c == ']' then b - 1 else b
          , if c == '{' then r + 1 else if c == '}' then r - 1 else r )
        else (p, b, r)
      countLine cs st.1 st.2 acc2

/-- The next-non-blank-line search of the indentation check (routes.ts
lines 318-321), returning the raw line found. -/
def findNextNonBlank : List Line → Option Line
  | [] => none
  | l :: rest => if (trim l).isEmpty then findNextNonBlank rest else some l

/-- Decimal digits of a number, as the characters JS interpolation
produces. -/
def natChars (n : Nat) : List Char := (Nat.repr n).data

/-- The message `Line ${i + 1}: Expected indented block after '${trimmed}'` for the
0-indexed line number `i` and trimmed text `t`. -/
def indentMsg (i : Nat) (t : Line) : Line :=
  S ("Line ") ++ natChars (i + 1) ++ S (": Expected indented block after '") ++
    t ++ ['\'']

/-- The three end-of-scan balance checks of `validatePythonSyntax`
(routes.ts lines 335-355), in source order: parentheses, then square
brackets, then curly braces. -/
def bracketVerdict : Int × Int × Int → ValidationResult
  | (p, b, r) =>
    if p ≠ 0 then .invalid (S ("Unmatched parentheses in code"))
    else if b ≠ 0 then .invalid (S ("Unmatched square brackets in code"))
    else if r ≠ 0 then .invalid (S ("Unmatched curly braces in code"))
    else .valid

/-- The indentation test of the check at routes.ts lines 323-331: a next
non-blank line exists and its indentation is not strictly greater than
the current line's. -/
def nextIndentLe (l : Line) (rest : List Line) : Bool :=
  (findNextNonBlank rest).elim false
    (fun nl => decide (getIndentLevel nl ≤ getIndentLevel l))

/-- The full failure condition of the indentation check for a line `l`
followed by `rest` (routes.ts lines 316-331): the trimmed line ends with
`:`, does not start with `#`, and the next non-blank line (if any) is
not indented more deeply. -/
def indentFailHere (l : Line) (rest : List Line) : Bool :=
  lineHasSfx [':'] (trim l) && !(lineHasPfx ['#'] (trim l)) && nextIndentLe l rest

/-- The line loop of `validatePythonSyntax` (routes.ts lines 275-333):
skip blank lines, update the counters over the trimmed line, and fail on
a colon-terminated non-comment line whose next non-blank line is not
indented more deeply; at end of input apply the balance checks. -/
def validateLoop : List Line → Nat → Int × Int × Int → ValidationResult
  | [], _, acc => bracketVerdict acc
  | l :: rest, i, acc =>
    if (trim l).isEmpty then validateLoop rest (i + 1) acc
    else if indentFailHere l rest then .invalid (indentMsg i (trim l))
    else validateLoop rest (i + 1) (countLine (trim l) false ' ' acc)

/-- Model of `PythonParser.validatePythonSyntax`. -/
def validatePythonSyntax (code : List Char) : ValidationResult :=
  validateLoop (splitLines code) 0 (0, 0, 0)

/-- The docstring-stripping loop of `extractCodeWithoutDocstrings`
(routes.ts lines 370-392): `inDoc` is the `inDocstring` flag and `q` the
recorded delimiter. -/
def extractLoop : List Line → Bool → Line → List Line
  | [], _, _ => []
  | l :: rest, inDoc, q =>
    if !inDoc && startsTriple (trim l) then
      let q2 := if lineHasPfx (S ("\"\"\"")) (trim l) then S ("\"\"\"") else S ("'''")
      if (trim l).length > 3 && lineHasSfx q2 (trim l) then extractLoop rest false q2
      else extractLoop rest true q2
    else if inDoc && lineHasSfx q (trim l) then extractLoop rest false q
    else if !inDoc then l :: extractLoop rest inDoc q
    else extractLoop rest inDoc q

/-- Model of `PythonParser.extractCodeWithoutDocstrings`. -/
def extractCodeWithoutDocstrings (code : List Char) : List Char :=
  joinLines (extractLoop (splitLines code) false [])

/-- The 1-indexed-minus-one (i.e. relative 0-indexed) position, within the
lines after the def line, of the first line at which the body-end scan
stops: a non-blank line whose indentation is at most the def line's and
whose trimmed text starts with a terminator keyword. -/
def firstStopRel (indent : Nat) : List Line → Option Nat
  | [] => none
  | l :: rest =>
    if (trim l).isEmpty then (firstStopRel indent rest).map (· + 1)
    else if getIndentLevel l ≤ indent ∧ isStopKw (trim l) = true then some 0
    else (firstStopRel indent rest).map (· + 1)

/-- Relative 0-indexed position of the last non-blank line of a line list. -/
def lastNonBlankRel : List Line → Option Nat
  | [] => none
  | l :: rest =>
    match lastNonBlankRel rest with
    | some m => some (m + 1)
    | none => if (trim l).isEmpty then none else some 0

theorem bodyEndScan_of_none (indent : Nat) (ls : List Line) : ∀ j e : Nat,
    firstStopRel indent ls = none → lastNonBlankRel ls = none →
    bodyEndScan indent ls j e = e := by
  induction ls with
  | nil => intro j e _ _; rfl
  | cons l rest ih =>
    intro j e hfs hlb
    by_cases hb : (trim l).isEmpty = true
    · rw [firstStopRel, if_pos hb, Option.map_eq_none'] at hfs
      rw [lastNonBlankRel] at hlb
      rw [bodyEndScan, if_pos hb]
      cases hlb2 : lastNonBlankRel rest with
      | some m => rw [hlb2] at hlb; exact absurd hlb (by simp)
      | none => exact ih (j + 1) e hfs hlb2
    · by_cases hs : getIndentLevel l ≤ indent ∧ isStopKw (trim l) = true
      · rw [firstStopRel, if_neg hb, if_pos hs] at hfs
        exact absurd hfs (by simp)
      · rw [lastNonBlankRel] at hlb
        cases hlb2 : lastNonBlankRel rest with
        | some m => rw [hlb2] at hlb; exact absurd hlb (by simp)
        | none => rw [hlb2, if_neg hb] at hlb; exact absurd hlb (by simp)

theorem bodyEndScan_of_stop (indent : Nat) (ls : List Line) : ∀ j e k : Nat,
    firstStopRel indent ls = some k → bodyEndScan indent ls j e = j + k := by
  induction ls with
  | nil => intro j e k h; exact absurd h (by simp [firstStopRel])
  | cons l rest ih =>
    intro j e k hfs
    by_cases hb : (trim l).isEmpty = true
    · rw [firstStopRel, if_pos hb, Option.map_eq_some'] at hfs
      obtain ⟨a, ha, hk⟩ := hfs
      rw [bodyEndScan, if_pos hb, ih (j + 1) e a ha]
      omega
    · by_cases hs : getIndentLevel l ≤ indent ∧ isStopKw (trim l) = true
      · rw [firstStopRel, if_neg hb, if_pos hs] at hfs
        rw [bodyEndScan, if_neg hb, if_pos hs]
        simp only [Option.some_inj] at hfs
        omega
      · rw [firstStopRel, if_neg hb, if_neg hs, Option.map_eq_some'] at hfs
        obtain ⟨a, ha, hk⟩ := hfs
        rw [bodyEndScan, if_neg hb, if_neg hs, ih (j + 1) (j + 1) a ha]
        omega

theorem bodyEndScan_of_last (indent : Nat) (ls : List Line) : ∀ j e m : Nat,
    firstStopRel indent ls = none → lastNonBlankRel ls = some m →
    bodyEndScan indent ls j e = j + m + 1 := by
  induction ls with
  | nil => intro j e m _ h; exact absurd h (by simp [lastNonBlankRel])
  | cons l rest ih =>
    intro j e m hfs hlb
    by_cases hb : (trim l).isEmpty = true
    · rw [firstStopRel, if_pos hb, Option.map_eq_none'] at hfs
      rw [lastNonBlankRel] at hlb
      rw [bodyEndScan, if_pos hb]
      cases hlb2 : lastNonBlankRel rest with
      | some m2 =>
        rw [hlb2] at hlb
        simp only [Option.some_inj] at hlb
        rw [ih (j + 1) e m2 hfs hlb2]
        omega
      | none => rw [hlb2, if_pos hb] at hlb; exact absurd hlb (by simp)
    · by_cases hs : getIndentLevel l ≤ indent ∧ isStopKw (trim l) = true
      · rw [firstStopRel, if_neg hb, if_pos hs] at hfs
        exact absurd hfs (by simp)
      · rw [firstStopRel, if_neg hb, if_neg hs, Option.map_eq_none'] at hfs
        rw [lastNonBlankRel] at hlb
        rw [bodyEndScan, if_neg hb, if_neg hs]
        cases hlb2 : lastNonBlankRel rest with
        | some m2 =>
          rw [hlb2] at hlb
          simp only [Option.some_inj] at hlb
          rw [ih (j + 1) (j + 1) m2 hfs hlb2]
          omega
        | none =>
          rw [hlb2, if_neg hb] at hlb
          simp only [Option.some_inj] at hlb
          rw [bodyEndScan_of_none indent rest (j + 1) (j + 1) hfs hlb2]
          omega

theorem parseLoop_mem (ls : List Line) : ∀ (i : Nat) (d : PythonFunction),
    d ∈ parseLoop ls i →
    ∃ pre l rest nm, ls = pre ++ l :: rest ∧ matchDef (trim l) = some nm ∧
      d = mkDesc (i + pre.length) l rest nm := by
  induction ls with
  | nil => intro i d h; simp [parseLoop] at h
  | cons l rest ih =>
    intro i d h
    rw [parseLoop] at h
    cases hm : matchDef (trim l) with
    | some nm =>
      rw [hm] at h
      rcases List.mem_cons.mp h with h1 | h2
      · refine ⟨[], l, rest, nm, by simp, hm, ?_⟩
        simpa using h1
      · obtain ⟨pre, l2, rest2, nm2, hls, hm2, hd⟩ := ih (i + 1) d h2
        refine ⟨l :: pre, l2, rest2, nm2, by simp [hls], hm2, ?_⟩
        rw [hd]
        have harith : i + 1 + pre.length = i + (l :: pre).length := by
          simp [List.length_cons]; omega
        rw [harith]
    | none =>
      rw [hm] at h
      obtain ⟨pre, l2, rest2, nm2, hls, hm2, hd⟩ := ih (i + 1) d h
      refine ⟨l :: pre, l2, rest2, nm2, by simp [hls], hm2, ?_⟩
      rw [hd]
      have harith : i + 1 + pre.length = i + (l :: pre).length := by
        simp [List.length_cons]; omega
      rw [harith]

theorem getD_append_len (l d : Line) : ∀ (pre rest : List Line),
    (pre ++ l :: rest).getD pre.length d = l := by
  intro pre
  induction pre with
  | nil => intro rest; rfl
  | cons p ps ih => intro rest; simp [List.getD] at ih ⊢; exact ih rest

theorem drop_append_len1 (l : Line) : ∀ (pre rest : List Line),
    (pre ++ l :: rest).drop (pre.length + 1) = rest := by
  intro pre
  induction pre with
  | nil => intro rest; rfl
  | cons p ps ih => intro rest; simp only [List.length_cons, List.cons_append,
      List.drop_succ_cons]; exact ih rest

theorem trim_decomp (l : Line) : ∃ a b, l = a ++ trim l ++ b := by
  refine ⟨l.takeWhile wsp, ((l.dropWhile wsp).reverse.takeWhile wsp).reverse, ?_⟩
  have h1 : trim l ++ ((l.dropWhile wsp).reverse.takeWhile wsp).reverse
      = l.dropWhile wsp := by
    rw [trim, ← List.reverse_append, List.takeWhile_append_dropWhile,
      List.reverse_reverse]
  rw [List.append_assoc, h1, List.takeWhile_append_dropWhile]

theorem matchDef_decomp (t nm : Line) (h : matchDef t = some nm) :
    ∃ p q, t = p ++ nm ++ q := by
  rw [matchDef.eq_def] at h
  split at h
  case h_2 => exact absurd h (by simp)
  case h_1 rest =>
    split at h
    · exact absurd h (by simp)
    · split at h
      case h_1 => exact absurd h (by simp)
      case h_2 c cs heq =>
        split at h
        · split at h
          case isTrue.h_1 =>
            simp only [Option.some_inj] at h
            refine ⟨'d' :: 'e' :: 'f' :: rest.takeWhile wsp,
              cs.dropWhile isIdentChar, ?_⟩
            have h2 : rest = rest.takeWhile wsp ++ (c :: cs) := by
              rw [← heq, List.takeWhile_append_dropWhile]
            have h3 : cs = cs.takeWhile isIdentChar ++ cs.dropWhile isIdentChar :=
              (List.takeWhile_append_dropWhile ..).symm
            rw [← h]
            simp only [List.cons_append, List.append_assoc, List.nil_append]
            rw [← h3, ← h2]
          case isTrue.h_2 => exact absurd h (by simp)
        · exact absurd h (by simp)

/-- Claim C4: on input `"def f(a,\n      b):\n    pass\n"`, `parseFunctions`
returns exactly one descriptor, with `name = "f"`, `startLine = 1` and
`signature = "def f(a, b)"`: the continuation line is trimmed and
space-joined while the parenthesis depth is positive or no colon has been
seen, and the colon is then stripped. -/
theorem c4_multiline_signature :
    parseFunctions (S ("def f(a,\n      b):\n    pass\n")) =
      [{ name := S ("f"), startLine := 1, endLine := 3,
         signature := S ("def f(a, b)"), hasDocstring := false }] := by decide

/-- Claim C7: for every input and every descriptor returned by
`parseFunctions`, `startLine ≤ endLine`, and the line of the original text
at 1-indexed position `startLine` contains the descriptor's `name` as a
substring. -/
theorem c7_descriptor_invariants (code : List Char) (d : PythonFunction)
    (hd : d ∈ parseFunctions code) :
    d.startLine ≤ d.endLine ∧
      ∃ p q, (splitLines code).getD (d.startLine - 1) [] = p ++ d.name ++ q := by
  unfold parseFunctions at hd
  obtain ⟨pre, l, rest, nm, hls, hm, hmk⟩ := parseLoop_mem (splitLines code) 0 d hd
  rw [Nat.zero_add] at hmk
  subst hmk
  constructor
  · show pre.length + 1 ≤ bodyEndScan (getIndentLevel l) rest (pre.length + 1)
      (pre.length + 1)
    cases hfs : firstStopRel (getIndentLevel l) rest with
    | some k =>
      rw [bodyEndScan_of_stop (getIndentLevel l) rest _ _ k hfs]
      omega
    | none =>
      cases hlb : lastNonBlankRel rest with
      | some m =>
        rw [bodyEndScan_of_last (getIndentLevel l) rest _ _ m hfs hlb]
        omega
      | none =>
        rw [bodyEndScan_of_none (getIndentLevel l) rest _ _ hfs hlb]
  · show ∃ p q, (splitLines code).getD (pre.length + 1 - 1) [] = p ++ nm ++ q
    rw [hls, Nat.add_sub_cancel, getD_append_len]
    obtain ⟨a, b, hab⟩ := trim_decomp l
    obtain ⟨p, q, hpq⟩ := matchDef_decomp (trim l) nm hm
    refine ⟨a ++ p, q ++ b, ?_⟩
    rw [hab, hpq]
    simp [List.append_assoc]

/-- A concrete instance of C7. -/
theorem c7_witness :
    ({ name := S ("f"), startLine := 1, endLine := 3, signature := S ("def f()"),
       hasDocstring := true } : PythonFunction) ∈
        parseFunctions (S ("def f():\n    \"\"\"doc\"\"\"\n    pass\n")) ∧
    (1 ≤ 3 ∧ ∃ p q,
      (splitLines (S ("def f():\n    \"\"\"doc\"\"\"\n    pass\n"))).getD 0 [] =
        p ++ S ("f") ++ q) :=
  ⟨by decide, c7_descriptor_invariants
    (S ("def f():\n    \"\"\"doc\"\"\"\n    pass\n"))
    { name := S ("f"), startLine := 1, endLine := 3, signature := S ("def f()"),
      hasDocstring := true } (by decide)⟩

/-- The docstring look-ahead applied at absolute 0-index `k` of the split
lines: the line at `k` exists and its trimmed form starts with `"""` or
`'''`. -/
def nextLineDoc (ls : List Line) (k : Nat) : Bool := nextDoc (ls.drop k)

/-- Claim C3: for every input, a descriptor's `hasDocstring` is true iff
the very next physical line after the matched def line (0-index equal to
`startLine`) exists and its trimmed form starts with `"""` or `'''`; the
check is taken on that physical line even for multi-line signatures.  In
particular the input `"def f():\n    \"\"\"doc\"\"\"\n    pass\n"` yields
one descriptor with `hasDocstring = true`. -/
theorem c3_docstring_next_line :
    (∀ (code : List Char) (d : PythonFunction), d ∈ parseFunctions code →
      d.hasDocstring = nextLineDoc (splitLines code) d.startLine) ∧
    (parseFunctions (S ("def f():\n    \"\"\"doc\"\"\"\n    pass\n"))).map
      (fun d => d.hasDocstring) = [true] := by
  constructor
  · intro code d hd
    unfold parseFunctions at hd
    obtain ⟨pre, l, rest, nm, hls, hm, hmk⟩ := parseLoop_mem (splitLines code) 0 d hd
    rw [Nat.zero_add] at hmk
    subst hmk
    show nextDoc rest = nextLineDoc (splitLines code) (pre.length + 1)
    rw [nextLineDoc, hls, drop_append_len1]
  · decide

/-- A concrete instance of C3's universally quantified part. -/
theorem c3_witness :
    ({ name := S ("f"), startLine := 1, endLine := 3, signature := S ("def f()"),
       hasDocstring := true } : PythonFunction) ∈
        parseFunctions (S ("def f():\n    \"\"\"doc\"\"\"\n    pass\n")) ∧
    (true : Bool) =
      nextLineDoc (splitLines (S ("def f():\n    \"\"\"doc\"\"\"\n    pass\n"))) 1 :=
  ⟨by decide, c3_docstring_next_line.1
    (S ("def f():\n    \"\"\"doc\"\"\"\n    pass\n"))
    { name := S ("f"), startLine := 1, endLine := 3, signature := S ("def f()"),
      hasDocstring := true } (by decide)⟩

theorem count_removeFirst (c : Char) : ∀ l : Line,
    (removeFirst c l).count c = l.count c - 1 := by
  intro l
  induction l with
  | nil => rfl
  | cons x xs ih =>
    by_cases hx : x = c
    · subst hx
      rw [removeFirst, if_pos (by simp)]
      simp [List.count_cons_self]
    · rw [removeFirst, if_neg (by simp [hx])]
      simp [List.count_cons, hx, ih]

/-- Claim C1 fails on the code: a def header with a parameter type
annotation and a return annotation keeps its terminating colon, because
`signature.replace(':', '')` removes only the first `:`. -/
theorem c1_counterexample :
    (parseFunctions (S ("def f(x: int) -> int:\n    pass"))).map
      (fun d => d.signature) = [S ("def f(x int) -> int:")] ∧
    ':' ∈ S ("def f(x int) -> int:") := by decide

/-- Claim C1 amended: for every descriptor, `signature` is the accumulated
header with only its FIRST `:` removed, so it contains one fewer `:` than
the header; it contains a `:` exactly when the header contains at least
two (as with parameter or return type annotations), and is colon-free
only when the header has at most one colon. -/
theorem c1_amended_first_colon_removed (code : List Char) (d : PythonFunction)
    (hd : d ∈ parseFunctions code) :
    ∃ pre l rest, splitLines code = pre ++ l :: rest ∧
      matchDef (trim l) = some d.name ∧
      d.signature = removeFirst ':' (accSigSt l rest).1 ∧
      d.signature.count ':' = (accSigSt l rest).1.count ':' - 1 ∧
      ((':' ∈ d.signature) ↔ 2 ≤ (accSigSt l rest).1.count ':') := by
  unfold parseFunctions at hd
  obtain ⟨pre, l, rest, nm, hls, hm, hmk⟩ := parseLoop_mem (splitLines code) 0 d hd
  rw [Nat.zero_add] at hmk
  subst hmk
  refine ⟨pre, l, rest, hls, hm, rfl, count_removeFirst ':' (accSigSt l rest).1, ?_⟩
  show (':' ∈ removeFirst ':' (accSigSt l rest).1) ↔ _
  rw [← List.count_pos_iff, count_removeFirst ':' (accSigSt l rest).1]
  omega

/-- A concrete instance of C1's amended statement. -/
theorem c1_amended_witness :
    ({ name := S ("f"), startLine := 1, endLine := 2,
       signature := S ("def f(x int) -> int:"), hasDocstring := false } :
        PythonFunction) ∈
      parseFunctions (S ("def f(x: int) -> int:\n    pass")) ∧
    (∃ pre l rest,
      splitLines (S ("def f(x: int) -> int:\n    pass")) = pre ++ l :: rest ∧
      matchDef (trim l) = some (S ("f")) ∧
      S ("def f(x int) -> int:") = removeFirst ':' (accSigSt l rest).1 ∧
      (S ("def f(x int) -> int:")).count ':' = (accSigSt l rest).1.count ':' - 1 ∧
      ((':' ∈ S ("def f(x int) -> int:")) ↔ 2 ≤ (accSigSt l rest).1.count ':')) :=
  ⟨by decide, c1_amended_first_colon_removed
    (S ("def f(x: int) -> int:\n    pass"))
    { name := S ("f"), startLine := 1, endLine := 2,
      signature := S ("def f(x int) -> int:"), hasDocstring := false }
    (by decide)⟩

/-- Claim C2 fails on the code: on `"def f():\n    pass\ndef g():\n    pass"`
the first stop line of the body-end scan for `f` is the line `"def g():"`
(1-indexed 3, relative index 1 after the def line), yet `endLine` is 2 —
the code stores the stop line's 0-indexed position, one less than its
1-indexed position. -/
theorem c2_counterexample :
    (parseFunctions (S ("def f():\n    pass\ndef g():\n    pass"))).map
      (fun d => d.endLine) = [2, 4] ∧
    (splitLines (S ("def f():\n    pass\ndef g():\n    pass"))).drop 1 =
      [S ("    pass"), S ("def g():"), S ("    pass")] ∧
    firstStopRel (getIndentLevel (S ("def f():")))
      [S ("    pass"), S ("def g():"), S ("    pass")] = some 1 ∧
    (2 : Nat) ≠ 1 + 1 + 1 := by decide

/-- Claim C2 amended: for every descriptor, if the body-end scan finds a
stop line (non-blank, indentation ≤ the def line's, trimmed text starting
with `def `, `class ` or `if __name__`) at relative index `k` after the
def line, then `endLine` is that line's 0-indexed absolute position
`pre.length + 1 + k` (its 1-indexed position minus one); if no stop line
exists, `endLine` is the 1-indexed position of the last non-blank line
after the def line, or `startLine` when no non-blank line follows. -/
theorem c2_amended_body_end (code : List Char) (d : PythonFunction)
    (hd : d ∈ parseFunctions code) :
    ∃ pre l rest, splitLines code = pre ++ l :: rest ∧
      matchDef (trim l) = some d.name ∧ d.startLine = pre.length + 1 ∧
      ((∃ k, firstStopRel (getIndentLevel l) rest = some k ∧
          d.endLine = pre.length + 1 + k) ∨
       (firstStopRel (getIndentLevel l) rest = none ∧
         ((∃ m, lastNonBlankRel rest = some m ∧
             d.endLine = pre.length + 1 + m + 1) ∨
          (lastNonBlankRel rest = none ∧ d.endLine = d.startLine)))) := by
  unfold parseFunctions at hd
  obtain ⟨pre, l, rest, nm, hls, hm, hmk⟩ := parseLoop_mem (splitLines code) 0 d hd
  rw [Nat.zero_add] at hmk
  subst hmk
  refine ⟨pre, l, rest, hls, hm, rfl, ?_⟩
  cases hfs : firstStopRel (getIndentLevel l) rest with
  | some k =>
    exact Or.inl ⟨k, rfl,
      bodyEndScan_of_stop (getIndentLevel l) rest (pre.length + 1)
        (pre.length + 1) k hfs⟩
  | none =>
    cases hlb : lastNonBlankRel rest with
    | some m =>
      exact Or.inr ⟨rfl, Or.inl ⟨m, rfl,
        bodyEndScan_of_last (getIndentLevel l) rest (pre.length + 1)
          (pre.length + 1) m hfs hlb⟩⟩
    | none =>
      exact Or.inr ⟨rfl, Or.inr ⟨rfl,
        bodyEndScan_of_none (getIndentLevel l) rest (pre.length + 1)
          (pre.length + 1) hfs hlb⟩⟩

/-- A concrete instance of C2's amended statement. -/
theorem c2_amended_witness :
    ({ name := S ("f"), startLine := 1, endLine := 2,
       signature := S ("def f()"), hasDocstring := false } : PythonFunction) ∈
      parseFunctions (S ("def f():\n    pass\ndef g():\n    pass")) ∧
    (∃ pre l rest,
      splitLines (S ("def f():\n    pass\ndef g():\n    pass")) =
        pre ++ l :: rest ∧
      matchDef (trim l) = some (S ("f")) ∧ 1 = pre.length + 1 ∧
      ((∃ k, firstStopRel (getIndentLevel l) rest = some k ∧
          2 = pre.length + 1 + k) ∨
       (firstStopRel (getIndentLevel l) rest = none ∧
         ((∃ m, lastNonBlankRel rest = some m ∧ 2 = pre.length + 1 + m + 1) ∨
          (lastNonBlankRel rest = none ∧ 2 = 1))))) :=
  ⟨by decide, c2_amended_body_end
    (S ("def f():\n    pass\ndef g():\n    pass"))
    { name := S ("f"), startLine := 1, endLine := 2,
      signature := S ("def f()"), hasDocstring := false }
    (by decide)⟩

/-- Position (relative to the head of `ls`) and trimmed text of the first
line at which the indentation check of `validatePythonSyntax` fails. -/
def firstIndentFailure : List Line → Option (Nat × Line)
  | [] => none
  | l :: rest =>
    if (trim l).isEmpty then
      (firstIndentFailure rest).map (fun p => (p.1 + 1, p.2))
    else if indentFailHere l rest then some (0, trim l)
    else (firstIndentFailure rest).map (fun p => (p.1 + 1, p.2))

/-- The bracket-counter part of the line loop alone: fold the per-line
character scan over the non-blank trimmed lines. -/
def countLines : List Line → Int × Int × Int → Int × Int × Int
  | [], acc => acc
  | l :: rest, acc =>
    if (trim l).isEmpty then countLines rest acc
    else countLines rest (countLine (trim l) false ' ' acc)

/-- The indentation check fails at 0-index `n` of `ls`: the line exists,
its trimmed text ends with `:` and does not start with `#`, and a next
non-blank line exists whose indentation is not strictly greater. -/
def indentFailAt (ls : List Line) (n : Nat) : Bool :=
  match ls.drop n with
  | [] => false
  | l :: rest => indentFailHere l rest

theorem indentFailAt_cons_succ (l : Line) (rest : List Line) (n : Nat) :
    indentFailAt (l :: rest) (n + 1) = indentFailAt rest n := rfl

theorem indentFailAt_cons_zero (l : Line) (rest : List Line) :
    indentFailAt (l :: rest) 0 = indentFailHere l rest := rfl

theorem validateLoop_of_fail : ∀ (ls : List Line) (n : Nat) (t : Line)
    (i : Nat) (acc : Int × Int × Int),
    firstIndentFailure ls = some (n, t) →
    validateLoop ls i acc = .invalid (indentMsg (i + n) t) := by
  intro ls
  induction ls with
  | nil => intro n t i acc h; exact absurd h (by simp [firstIndentFailure])
  | cons l rest ih =>
    intro n t i acc h
    by_cases hb : (trim l).isEmpty = true
    · rw [firstIndentFailure, if_pos hb, Option.map_eq_some'] at h
      obtain ⟨p, hp, hpt⟩ := h
      rw [validateLoop, if_pos hb, ih p.1 p.2 (i + 1) acc (by rw [hp])]
      have h2 : n = p.1 + 1 ∧ t = p.2 :=
        ⟨(congrArg Prod.fst hpt).symm, (congrArg Prod.snd hpt).symm⟩
      have h1 : i + 1 + p.1 = i + n := by omega
      rw [h1, ← h2.2]
    · rw [firstIndentFailure, if_neg hb] at h
      by_cases hf : indentFailHere l rest = true
      · rw [if_pos hf, Option.some_inj, Prod.mk.injEq] at h
        rw [validateLoop, if_neg hb, if_pos hf, ← h.1, ← h.2, Nat.add_zero]
      · rw [if_neg hf, Option.map_eq_some'] at h
        obtain ⟨p, hp, hpt⟩ := h
        rw [validateLoop, if_neg hb, if_neg hf,
          ih p.1 p.2 (i + 1) _ (by rw [hp])]
        have h2 : n = p.1 + 1 ∧ t = p.2 :=
          ⟨(congrArg Prod.fst hpt).symm, (congrArg Prod.snd hpt).symm⟩
        have h1 : i + 1 + p.1 = i + n := by omega
        rw [h1, ← h2.2]

theorem validateLoop_of_none : ∀ (ls : List Line) (i : Nat)
    (acc : Int × Int × Int),
    firstIndentFailure ls = none →
    validateLoop ls i acc = bracketVerdict (countLines ls acc) := by
  intro ls
  induction ls with
  | nil => intro i acc _; rfl
  | cons l rest ih =>
    intro i acc h
    by_cases hb : (trim l).isEmpty = true
    · rw [firstIndentFailure, if_pos hb, Option.map_eq_none'] at h
      rw [validateLoop, if_pos hb, countLines, if_pos hb]
      exact ih (i + 1) acc h
    · rw [firstIndentFailure, if_neg hb] at h
      by_cases hf : indentFailHere l rest = true
      · rw [if_pos hf] at h
        exact absurd h (by simp)
      · rw [if_neg hf, Option.map_eq_none'] at h
        rw [validateLoop, if_neg hb, if_neg hf, countLines, if_neg hb]
        exact ih (i + 1) _ h

theorem firstIndentFailure_fail : ∀ (ls : List Line) (n : Nat) (t : Line),
    firstIndentFailure ls = some (n, t) →
    indentFailAt ls n = true ∧ t = trim (ls.getD n []) := by
  intro ls
  induction ls with
  | nil => intro n t h; exact absurd h (by simp [firstIndentFailure])
  | cons l rest ih =>
    intro n t h
    by_cases hb : (trim l).isEmpty = true
    · rw [firstIndentFailure, if_pos hb, Option.map_eq_some'] at h
      obtain ⟨p, hp, hpt⟩ := h
      have h2 : n = p.1 + 1 ∧ t = p.2 :=
        ⟨(congrArg Prod.fst hpt).symm, (congrArg Prod.snd hpt).symm⟩
      obtain ⟨hfa, ht⟩ := ih p.1 p.2 (by rw [hp])
      rw [h2.1, indentFailAt_cons_succ]
      exact ⟨hfa, by rw [h2.2, ht]; rfl⟩
    · rw [firstIndentFailure, if_neg hb] at h
      by_cases hf : indentFailHere l rest = true
      · rw [if_pos hf, Option.some_inj, Prod.mk.injEq] at h
        rw [← h.1, indentFailAt_cons_zero]
        exact ⟨hf, h.2.symm⟩
      · rw [if_neg hf, Option.map_eq_some'] at h
        obtain ⟨p, hp, hpt⟩ := h
        have h2 : n = p.1 + 1 ∧ t = p.2 :=
          ⟨(congrArg Prod.fst hpt).symm, (congrArg Prod.snd hpt).symm⟩
        obtain ⟨hfa, ht⟩ := ih p.1 p.2 (by rw [hp])
        rw [h2.1, indentFailAt_cons_succ]
        exact ⟨hfa, by rw [h2.2, ht]; rfl⟩

theorem indentFailAt_not_none : ∀ (ls : List Line) (n : Nat),
    indentFailAt ls n = true → firstIndentFailure ls ≠ none := by
  intro ls
  induction ls with
  | nil => intro n h; exact absurd h (by simp [indentFailAt])
  | cons l rest ih =>
    intro n h
    cases n with
    | zero =>
      rw [indentFailAt_cons_zero] at h
      have hb : ¬ (trim l).isEmpty = true := by
        intro hb
        rw [indentFailHere, List.isEmpty_iff.mp hb] at h
        simp [lineHasSfx, lineHasPfx] at h
      rw [firstIndentFailure, if_neg hb, if_pos h]
      simp
    | succ m =>
      rw [indentFailAt_cons_succ] at h
      have hne := ih m h
      by_cases hb : (trim l).isEmpty = true
      · rw [firstIndentFailure, if_pos hb]
        simpa using hne
      · rw [firstIndentFailure, if_neg hb]
        by_cases hf : indentFailHere l rest = true
        · rw [if_pos hf]; simp
        · rw [if_neg hf]; simpa using hne

/-- Claim C5: whenever some line's trimmed text ends with `:`, does not
start with `#`, and the next non-blank line exists with indentation not
strictly greater, `validatePythonSyntax` returns Invalid with the message
`Line {n}: Expected indented block after '{trimmed}'` for such a line
(`n` 1-indexed, here `indentMsg` applied to the 0-indexed position); in
particular `"if True:\npass\n"` yields Invalid citing line 1. -/
theorem c5_expected_indented_block :
    (∀ code : List Char, (∃ i, indentFailAt (splitLines code) i = true) →
      ∃ n, indentFailAt (splitLines code) n = true ∧
        validatePythonSyntax code =
          .invalid (indentMsg n (trim ((splitLines code).getD n [])))) ∧
    validatePythonSyntax (S ("if True:\npass\n")) =
      .invalid (S ("Line 1: Expected indented block after 'if True:'")) := by
  constructor
  · intro code hex
    obtain ⟨i, hi⟩ := hex
    cases hff : firstIndentFailure (splitLines code) with
    | none => exact absurd hff (indentFailAt_not_none (splitLines code) i hi)
    | some p =>
      obtain ⟨hfa, ht⟩ :=
        firstIndentFailure_fail (splitLines code) p.1 p.2 (by rw [hff])
      refine ⟨p.1, hfa, ?_⟩
      unfold validatePythonSyntax
      rw [validateLoop_of_fail (splitLines code) p.1 p.2 0 (0, 0, 0) (by rw [hff]),
        Nat.zero_add, ← ht]
  · decide

/-- A concrete instance of C5's universally quantified part. -/
theorem c5_witness :
    (∃ i, indentFailAt (splitLines (S ("if True:\npass\n"))) i = true) ∧
    (∃ n, indentFailAt (splitLines (S ("if True:\npass\n"))) n = true ∧
      validatePythonSyntax (S ("if True:\npass\n")) =
        .invalid (indentMsg n
          (trim ((splitLines (S ("if True:\npass\n"))).getD n [])))) :=
  ⟨⟨0, by decide⟩,
    c5_expected_indented_block.1 (S ("if True:\npass\n")) ⟨0, by decide⟩⟩

/-- Claim C6: after a scan with no indentation failure,
`validatePythonSyntax` applies the three balance checks in the order
parentheses, square brackets, curly braces (`bracketVerdict`), returning
only the first failing message; in particular `"x = (1, 2\n"` yields
Invalid with message `Unmatched parentheses in code`. -/
theorem c6_bracket_check_order :
    (∀ code : List Char, firstIndentFailure (splitLines code) = none →
      validatePythonSyntax code =
        bracketVerdict (countLines (splitLines code) (0, 0, 0))) ∧
    validatePythonSyntax (S ("x = (1, 2\n")) =
      .invalid (S ("Unmatched parentheses in code")) := by
  constructor
  · intro code h
    unfold validatePythonSyntax
    exact validateLoop_of_none (splitLines code) 0 (0, 0, 0) h
  · decide

/-- A concrete instance of C6's universally quantified part. -/
theorem c6_witness :
    firstIndentFailure (splitLines (S ("x = (1, 2\n"))) = none ∧
    validatePythonSyntax (S ("x = (1, 2\n")) =
      bracketVerdict (countLines (splitLines (S ("x = (1, 2\n"))) (0, 0, 0)) :=
  ⟨by decide, c6_bracket_check_order.1 (S ("x = (1, 2\n")) (by decide)⟩

/-- Every line whose trimmed text ends with `:` and does not start with
`#` has no subsequent non-blank line. -/
def colonLinesLackFollowers : List Line → Bool
  | [] => true
  | l :: rest =>
    (if lineHasSfx [':'] (trim l) = true ∧ lineHasPfx ['#'] (trim l) = false then
       (findNextNonBlank rest).isNone
     else true) && colonLinesLackFollowers rest

theorem noFollower_no_failure : ∀ ls : List Line,
    colonLinesLackFollowers ls = true → firstIndentFailure ls = none := by
  intro ls
  induction ls with
  | nil => intro _; rfl
  | cons l rest ih =>
    intro h
    rw [colonLinesLackFollowers, Bool.and_eq_true] at h
    have htail := ih h.2
    have hhf : indentFailHere l rest = false := by
      rw [indentFailHere]
      by_cases hc : lineHasSfx [':'] (trim l) = true ∧
          lineHasPfx ['#'] (trim l) = false
      · have hn := h.1
        rw [if_pos hc, Option.isNone_iff_eq_none] at hn
        rw [nextIndentLe, hn]
        simp
      · rcases not_and_or.mp hc with h1 | h2
        · have hx : lineHasSfx [':'] (trim l) = false := by
            cases hy : lineHasSfx [':'] (trim l)
            · rfl
            · exact absurd hy h1
          simp [hx]
        · have hx : lineHasPfx ['#'] (trim l) = true := by
            cases hy : lineHasPfx ['#'] (trim l)
            · exact absurd hy h2
            · rfl
          simp [hx]
    by_cases hb : (trim l).isEmpty = true
    · rw [firstIndentFailure, if_pos hb, htail]
      rfl
    · rw [firstIndentFailure, if_neg hb, if_neg (by rw [hhf]; simp), htail]
      rfl

/-- Claim C10: for inputs in which every colon-terminated non-comment
line has no subsequent non-blank line, the missing-indented-block check
never fails — the result is just the bracket-balance verdict; in
particular `"if True:"` alone, or followed only by blank lines, is
Valid. -/
theorem c10_no_follower_valid :
    (∀ code : List Char, colonLinesLackFollowers (splitLines code) = true →
      validatePythonSyntax code =
        bracketVerdict (countLines (splitLines code) (0, 0, 0))) ∧
    validatePythonSyntax (S ("if True:")) = .valid ∧
    validatePythonSyntax (S ("if True:\n\n\n")) = .valid := by
  refine ⟨?_, by decide, by decide⟩
  intro code h
  unfold validatePythonSyntax
  exact validateLoop_of_none (splitLines code) 0 (0, 0, 0)
    (noFollower_no_failure _ h)

/-- A concrete instance of C10's universally quantified part. -/
theorem c10_witness :
    colonLinesLackFollowers (splitLines (S ("if True:"))) = true ∧
    validatePythonSyntax (S ("if True:")) =
      bracketVerdict (countLines (splitLines (S ("if True:"))) (0, 0, 0)) :=
  ⟨by decide, c10_no_follower_valid.1 (S ("if True:")) (by decide)⟩

theorem splitLines_ne_nil (s : List Char) : splitLines s ≠ [] := by
  cases s with
  | nil => simp [splitLines]
  | cons c cs =>
    rw [splitLines]
    by_cases hc : (c == '\n') = true
    · rw [if_pos hc]; simp
    · rw [if_neg hc]
      cases hs : splitLines cs with
      | nil => simp
      | cons l ls => simp

theorem joinLines_splitLines : ∀ s : List Char, joinLines (splitLines s) = s := by
  intro s
  induction s with
  | nil => rfl
  | cons c cs ih =>
    rw [splitLines]
    by_cases hc : (c == '\n') = true
    · rw [if_pos hc]
      cases hs : splitLines cs with
      | nil => exact absurd hs (splitLines_ne_nil cs)
      | cons l ls =>
        rw [hs] at ih
        have hcn : c = '\n' := by simpa using hc
        subst hcn
        rw [joinLines]
        rw [ih]
        rfl
    · rw [if_neg hc]
      cases hs : splitLines cs with
      | nil => exact absurd hs (splitLines_ne_nil cs)
      | cons l ls =>
        rw [hs] at ih
        show joinLines ((c :: l) :: ls) = c :: cs
        cases ls with
        | nil =>
          rw [joinLines] at ih ⊢
          rw [ih]
        | cons l2 ls2 =>
          rw [joinLines] at ih ⊢
          rw [← ih]
          rfl

theorem extractLoop_noop : ∀ (ls : List Line) (q : Line),
    (∀ l ∈ ls, startsTriple (trim l) = false) → extractLoop ls false q = ls := by
  intro ls
  induction ls with
  | nil => intro q _; rfl
  | cons l rest ih =>
    intro q h
    have hl : startsTriple (trim l) = false := h l (List.mem_cons_self l rest)
    rw [extractLoop]
    rw [if_neg (by rw [hl]; simp)]
    rw [if_neg (by simp)]
    rw [if_pos (by simp)]
    rw [ih q (fun x hx => h x (List.mem_cons_of_mem l hx))]

/-- Claim C9: `extractCodeWithoutDocstrings` is idempotent on inputs whose
output contains no remaining triple-quoted block, i.e. no output line
whose trimmed form starts with `"""` or `'''`. -/
theorem c9_extract_idempotent (code : List Char)
    (h : (splitLines (extractCodeWithoutDocstrings code)).all
      (fun l => !(startsTriple (trim l))) = true) :
    extractCodeWithoutDocstrings (extractCodeWithoutDocstrings code) =
      extractCodeWithoutDocstrings code := by
  have h2 : ∀ l ∈ splitLines (extractCodeWithoutDocstrings code),
      startsTriple (trim l) = false := by
    intro l hl
    have h3 := List.all_eq_true.mp h l hl
    simpa using h3
  conv_lhs => rw [extractCodeWithoutDocstrings]
  rw [extractLoop_noop _ [] h2, joinLines_splitLines]

/-- A concrete instance of C9. -/
theorem c9_witness :
    (splitLines (extractCodeWithoutDocstrings
        (S ("def f():\n    \"\"\"doc\"\"\"\n    pass")))).all
      (fun l => !(startsTriple (trim l))) = true ∧
    extractCodeWithoutDocstrings (extractCodeWithoutDocstrings
        (S ("def f():\n    \"\"\"doc\"\"\"\n    pass"))) =
      extractCodeWithoutDocstrings (S ("def f():\n    \"\"\"doc\"\"\"\n    pass")) :=
  ⟨by decide, c9_extract_idempotent
    (S ("def f():\n    \"\"\"doc\"\"\"\n    pass")) (by decide)⟩

theorem splitLines_append_nl : ∀ s : List Char,
    splitLines (s ++ ['\n']) = splitLines s ++ [[]] := by
  intro s
  induction s with
  | nil => rfl
  | cons c cs ih =>
    rw [List.cons_append, splitLines, splitLines]
    by_cases hc : (c == '\n') = true
    · rw [if_pos hc, if_pos hc, ih]
      rfl
    · rw [if_neg hc, if_neg hc, ih]
      cases hs : splitLines cs with
      | nil => exact absurd hs (splitLines_ne_nil cs)
      | cons l ls => rfl

theorem splitLines_append_replicate_nl : ∀ (k : Nat) (s : List Char),
    splitLines (s ++ List.replicate k '\n') =
      splitLines s ++ List.replicate k [] := by
  intro k
  induction k with
  | zero => intro s; simp
  | succ m ih =>
    intro s
    have h1 : s ++ List.replicate (m + 1) '\n' =
        (s ++ ['\n']) ++ List.replicate m '\n' := by
      rw [List.replicate_succ, List.append_assoc]
      rfl
    rw [h1, ih, splitLines_append_nl, List.replicate_succ, List.append_assoc]
    rfl

theorem parseLoop_replicate_nil : ∀ (k i : Nat),
    parseLoop (List.replicate k []) i = [] := by
  intro k
  induction k with
  | zero => intro i; rfl
  | succ m ih =>
    intro i
    show parseLoop (List.replicate m []) (i + 1) = []
    exact ih (i + 1)

theorem bodyEndScan_blanks (indent : Nat) : ∀ (k j e : Nat),
    bodyEndScan indent (List.replicate k []) j e = e := by
  intro k
  induction k with
  | zero => intro j e; rfl
  | succ m ih =>
    intro j e
    show bodyEndScan indent (List.replicate m []) (j + 1) e = e
    exact ih (j + 1) e

theorem bodyEndScan_append_blanks (indent : Nat) : ∀ (xs : List Line)
    (k j e : Nat),
    bodyEndScan indent (xs ++ List.replicate k []) j e =
      bodyEndScan indent xs j e := by
  intro xs
  induction xs with
  | nil => intro k j e; rw [List.nil_append, bodyEndScan_blanks]; rfl
  | cons l rest ih =>
    intro k j e
    rw [List.cons_append]
    by_cases hb : (trim l).isEmpty = true
    · rw [bodyEndScan, if_pos hb, bodyEndScan, if_pos hb]
      exact ih k (j + 1) e
    · by_cases hs : getIndentLevel l ≤ indent ∧ isStopKw (trim l) = true
      · rw [bodyEndScan, if_neg hb, if_pos hs, bodyEndScan, if_neg hb, if_pos hs]
      · rw [bodyEndScan, if_neg hb, if_neg hs, bodyEndScan, if_neg hb, if_neg hs]
        exact ih k (j + 1) (j + 1)

theorem sigLoopSt_stopped (ys : List Line) (sig : Line) (pc : Int)
    (h : ¬(pc > 0 ∨ sig.contains ':' = false)) : sigLoopSt ys sig pc = (sig, pc) := by
  cases ys with
  | nil => rfl
  | cons y ys2 => rw [sigLoopSt, if_neg h]

theorem sigLoopSt_append : ∀ (xs ys : List Line) (sig : Line) (pc : Int),
    ¬((sigLoopSt xs sig pc).2 > 0 ∨ (sigLoopSt xs sig pc).1.contains ':' = false) →
    sigLoopSt (xs ++ ys) sig pc = sigLoopSt xs sig pc := by
  intro xs
  induction xs with
  | nil =>
    intro ys sig pc h
    exact sigLoopSt_stopped ys sig pc h
  | cons x xs2 ih =>
    intro ys sig pc h
    by_cases hc : pc > 0 ∨ sig.contains ':' = false
    · rw [sigLoopSt, if_pos hc] at h
      rw [List.cons_append, sigLoopSt, if_pos hc, sigLoopSt, if_pos hc]
      exact ih ys _ _ h
    · rw [List.cons_append, sigLoopSt, if_neg hc, sigLoopSt, if_neg hc]

theorem nextDoc_blanks : ∀ k : Nat, nextDoc (List.replicate k []) = false := by
  intro k
  cases k with
  | zero => rfl
  | succ m => rfl

/-- Every line matching the def-header regex has a signature-reassembly
loop that reaches its exit condition (non-positive parenthesis balance
and a colon present in the accumulated header) before end of input. -/
def allSigsClosed : List Line → Bool
  | [] => true
  | l :: rest =>
    (if (matchDef (trim l)).isSome then
       decide (¬((accSigSt l rest).2 > 0 ∨ (accSigSt l rest).1.contains ':' = false))
     else true) && allSigsClosed rest

theorem parseLoop_append_blanks : ∀ (ls : List Line) (k i : Nat),
    allSigsClosed ls = true →
    parseLoop (ls ++ List.replicate k []) i = parseLoop ls i := by
  intro ls
  induction ls with
  | nil =>
    intro k i _
    rw [List.nil_append, parseLoop_replicate_nil]
    rfl
  | cons l rest ih =>
    intro k i h
    rw [allSigsClosed, Bool.and_eq_true] at h
    rw [List.cons_append]
    cases hm : matchDef (trim l) with
    | none =>
      rw [parseLoop, hm, parseLoop, hm]
      show parseLoop (rest ++ List.replicate k []) (i + 1) = parseLoop rest (i + 1)
      exact ih k (i + 1) h.2
    | some nm =>
      have hcl : ¬((accSigSt l rest).2 > 0 ∨
          (accSigSt l rest).1.contains ':' = false) := by
        have h1 := h.1
        rw [if_pos (by rw [hm]; rfl)] at h1
        exact of_decide_eq_true h1
      rw [parseLoop, hm, parseLoop, hm]
      show mkDesc i l (rest ++ List.replicate k []) nm ::
          parseLoop (rest ++ List.replicate k []) (i + 1) =
        mkDesc i l rest nm :: parseLoop rest (i + 1)
      have hmk : mkDesc i l (rest ++ List.replicate k []) nm = mkDesc i l rest nm := by
        rw [mkDesc, mkDesc]
        have he : bodyEndScan (getIndentLevel l) (rest ++ List.replicate k [])
            (i + 1) (i + 1) =
            bodyEndScan (getIndentLevel l) rest (i + 1) (i + 1) :=
          bodyEndScan_append_blanks (getIndentLevel l) rest k (i + 1) (i + 1)
        have hsg : accSigSt l (rest ++ List.replicate k []) = accSigSt l rest := by
          rw [accSigSt, accSigSt]
          exact sigLoopSt_append rest (List.replicate k []) (trim l)
            (parenDelta (trim l)) hcl
        have hdoc : nextDoc (rest ++ List.replicate k []) = nextDoc rest := by
          cases rest with
          | nil => rw [List.nil_append, nextDoc_blanks]; rfl
          | cons nl rest2 => rfl
        rw [he, hsg, hdoc]
      rw [hmk, ih k (i + 1) h.2]

/-- Claim C8 fails on the code: appending one trailing empty line to
`"def f()"` (a def header whose reassembly loop never sees a colon)
changes the descriptor's `signature` from `"def f()"` to `"def f() "` —
the loop consumes the new blank line and space-joins its empty trim. -/
theorem c8_counterexample :
    splitLines (S ("def f()\n")) = splitLines (S ("def f()")) ++ [[]] ∧
    (parseFunctions (S ("def f()"))).map (fun d => d.signature) =
      [S ("def f()")] ∧
    (parseFunctions (S ("def f()\n"))).map (fun d => d.signature) =
      [S ("def f() ")] ∧
    S ("def f()") ≠ S ("def f() ") := by decide

/-- Claim C8 amended: appending trailing empty lines changes no descriptor
field, provided every matched def header's signature reassembly reaches
its exit condition (parenthesis balance ≤ 0 and a colon seen) before end
of input — as is the case for every well-formed header; a header still
being reassembled at end of input instead gains one `' '` per appended
blank line in its `signature`. -/
theorem c8_amended_trailing_blanks (code : List Char) (k : Nat)
    (h : allSigsClosed (splitLines code) = true) :
    parseFunctions (code ++ List.replicate k '\n') = parseFunctions code := by
  rw [parseFunctions, parseFunctions, splitLines_append_replicate_nl]
  exact parseLoop_append_blanks (splitLines code) k 0 h

/-- A concrete instance of C8's amended statement. -/
theorem c8_amended_witness :
    allSigsClosed (splitLines (S ("def f():\n    pass"))) = true ∧
    parseFunctions (S ("def f():\n    pass") ++ List.replicate 2 '\n') =
      parseFunctions (S ("def f():\n    pass")) :=
  ⟨by decide, c8_amended_trailing_blanks (S ("def f():\n    pass")) 2 (by decide)⟩
